import Mathlib

/-!
Shallow embedding of the LingoAI translator core (src/App.tsx and the
Gemini service module) together with proofs about its edit history,
stream-cancellation discipline, and PCM audio codec.

Modelling conventions:
* React `useState` values and `useRef` cells become fields of explicit
  state records; each event handler becomes a pure state-transition
  function, applied in the order the JavaScript statements execute.
  State updates are modelled as visible to the next handler invocation
  (a re-render separates consecutive UI events).
* JavaScript numbers that only ever hold small integers become `Nat`;
  audio samples (Float32/double values) become `Rat`.  The two numeric
  operations the audio path performs — multiplication by 32768 and
  division by 32768 (powers of two) — are exact in binary floating
  point for the value ranges involved, so rational arithmetic agrees
  with the source's floating-point arithmetic there.
* Fallible code (the `Int16Array` constructor throwing on an odd byte
  length) is modelled with `Except`.
-/

namespace LingoAI

/-! ## Edit history (src/App.tsx lines 24-26, 92-128)

React state: `history : string[]` (initially `['']`), `historyIndex : number`
(initially `0`), `sourceText : string`, and the ref `isInternalChange`. -/

structure HistoryState where
  history : List String
  historyIndex : Nat
  sourceText : String
  isInternalChange : Bool
  deriving Repr, DecidableEq

/-- `handleUndo` (App.tsx 92-99): if `historyIndex > 0`, set the
re-entrancy flag, move the cursor back one, and replay the previous
snapshot into `sourceText`; otherwise do nothing. -/
def handleUndo (s : HistoryState) : HistoryState :=
  if 0 < s.historyIndex then
    { s with
      isInternalChange := true
      historyIndex := s.historyIndex - 1
      sourceText := (s.history.get? (s.historyIndex - 1)).getD "" }
  else s

/-- `handleRedo` (App.tsx 101-108): if `historyIndex < history.length - 1`,
set the re-entrancy flag, move the cursor forward one, and replay the next
snapshot into `sourceText`; otherwise do nothing. -/
def handleRedo (s : HistoryState) : HistoryState :=
  if s.historyIndex < s.history.length - 1 then
    { s with
      isInternalChange := true
      historyIndex := s.historyIndex + 1
      sourceText := (s.history.get? (s.historyIndex + 1)).getD "" }
  else s

/-- Body of the debounced history-tracking step (App.tsx 118-124): if the
text differs from the entry at the cursor, truncate to `[0..cursor]`,
append the text, evict the oldest entry when the length exceeds 50, and
point the cursor at the new last entry.  (JavaScript compares
`sourceText !== history[historyIndex]`; an out-of-range read yields
`undefined`, which always differs from a string, hence the `Option`
comparison.) -/
def pushHistory (text : String) (history : List String) (historyIndex : Nat) :
    List String × Nat :=
  if some text = history.get? historyIndex then (history, historyIndex)
  else
    let newHistory := history.take (historyIndex + 1) ++ [text]
    let newHistory := if 50 < newHistory.length then newHistory.tail else newHistory
    (newHistory, newHistory.length - 1)

/-- The history-tracking effect (App.tsx 111-128): a replayed
undo/redo value resets the re-entrancy flag and records nothing;
otherwise the debounced `pushHistory` step runs on the current text. -/
def historyTrack (s : HistoryState) : HistoryState :=
  if s.isInternalChange then { s with isInternalChange := false }
  else
    let p := pushHistory s.sourceText s.history s.historyIndex
    { s with history := p.1, historyIndex := p.2 }

/-- Folding a whole sequence of debounced snapshots through `pushHistory`. -/
def pushMany (texts : List String) (h : List String × Nat) : List String × Nat :=
  texts.foldl (fun h t => pushHistory t h.1 h.2) h

/-- The edit-history invariant: at most 50 entries and the cursor in range. -/
def HistInv (history : List String) (historyIndex : Nat) : Prop :=
  history.length ≤ 50 ∧ historyIndex < history.length

instance (history : List String) (historyIndex : Nat) :
    Decidable (HistInv history historyIndex) :=
  inferInstanceAs (Decidable (_ ∧ _))

/-! ## Translation orchestrator state (src/App.tsx lines 10-21, 43, 50-89,
154-172, 184-195)

React state relevant to a translation request/response cycle, plus the
`activeStreamRef` generation counter.  The selection's screen coordinates
and the persisted localStorage draft are presentation / external I/O and
carry no algorithmic content; the selection is modelled by its text. -/

inductive TranslationStatus where
  | idle
  | loading
  | success
  | errorState
  deriving Repr, DecidableEq

structure TranslationResult where
  translatedText : String
  detectedLanguage : String
  confidence : Rat
  deriving Repr, DecidableEq

structure AppState where
  sourceText : String
  targetText : String
  detectedLang : String
  confidence : Rat
  status : TranslationStatus
  errorMsg : Option String
  activeStream : Nat
  selection : Option String
  uploadedFileName : Option String
  translatedDocContent : Option String
  deriving Repr, DecidableEq

/-- `err.message || 'Translation failed. Please try again.'` (App.tsx 86):
JavaScript `||` falls through on the empty string as well as on a missing
message. -/
def messageOrDefault (m : Option String) : String :=
  match m with
  | some msg => if msg = "" then "Translation failed. Please try again." else msg
  | none => "Translation failed. Please try again."

/-- JavaScript `text.trim()`: strip whitespace from both ends.  (Executable
re-statement of `String.trim` over the character list, so concrete inputs
evaluate by `decide`.) -/
def jsTrim (text : String) : String :=
  String.mk
    (((text.data.dropWhile Char.isWhitespace).reverse.dropWhile
        Char.isWhitespace).reverse)

/-- Synchronous prefix of `handleTranslate` (App.tsx 50-61): whitespace-only
text clears target text, detected language and confidence and returns with
no stream started; otherwise the generation counter is advanced and
captured, status becomes loading, the error is cleared and the target text
is reset for streaming.  Returns the captured generation, if any. -/
def handleTranslateStart (text : String) (s : AppState) : AppState × Option Nat :=
  if jsTrim text = "" then
    ({ s with targetText := "", detectedLang := "", confidence := 0 }, none)
  else
    let streamId := s.activeStream + 1
    ({ s with
        activeStream := streamId
        status := TranslationStatus.loading
        errorMsg := none
        targetText := "" }, some streamId)

/-- One iteration of the stream-consuming loop (App.tsx 67-71): the
captured generation is checked against the counter before any mutation;
a stale iteration returns (`none`), aborting the task. `fullText` is the
local accumulator of the async function.  Returns the new accumulator. -/
def processChunk (streamId : Nat) (fullText chunkText : String) (s : AppState) :
    AppState × Option String :=
  if streamId ≠ s.activeStream then (s, none)
  else
    let fullText := fullText ++ chunkText
    ({ s with targetText := fullText }, some fullText)

/-- Post-loop completion (App.tsx 73-82): with `sourceLang = 'auto'` the
structured call's result is published behind the generation check and
status becomes success; otherwise status becomes success unconditionally. -/
def finishStream (sourceLangAuto : Bool) (streamId : Nat) (r : TranslationResult)
    (s : AppState) : AppState :=
  if sourceLangAuto then
    if streamId ≠ s.activeStream then s
    else
      { s with
          detectedLang := r.detectedLanguage
          confidence := r.confidence
          status := TranslationStatus.success }
  else { s with status := TranslationStatus.success }

/-- The `catch` branch of `handleTranslate` (App.tsx 83-88): the error
message and the Error status are published only behind the generation
check. -/
def handleTranslateCatch (streamId : Nat) (m : Option String) (s : AppState) :
    AppState :=
  if streamId ≠ s.activeStream then s
  else
    { s with
        errorMsg := some (messageOrDefault m)
        status := TranslationStatus.errorState }

/-- The asynchronous events that can reach the shared state during a
translation cycle, and their (interleavable) effect on it. -/
inductive StreamEvent where
  | startReq (text : String)
  | chunk (g : Nat) (fullText chunkText : String)
  | finish (sourceLangAuto : Bool) (g : Nat) (r : TranslationResult)
  | failed (g : Nat) (m : Option String)

def stepEvent (s : AppState) : StreamEvent → AppState
  | StreamEvent.startReq text => (handleTranslateStart text s).1
  | StreamEvent.chunk g ft c => (processChunk g ft c s).1
  | StreamEvent.finish auto g r => finishStream auto g r s
  | StreamEvent.failed g m => handleTranslateCatch g m s

/-- `handleClear` (App.tsx 184-195): resets the request/response state to
the idle configuration.  (The `localStorage.removeItem` call is external
I/O.)  Note: `activeStreamRef` is not touched. -/
def handleClear (s : AppState) : AppState :=
  { s with
      sourceText := ""
      targetText := ""
      detectedLang := ""
      confidence := 0
      errorMsg := none
      status := TranslationStatus.idle
      selection := none
      uploadedFileName := none
      translatedDocContent := none }

/-- Decision taken by the debounced-translation effect (App.tsx 154-172):
non-empty text while not recording schedules `handleTranslate`; empty text
clears the outputs and returns to idle; otherwise nothing happens. -/
inductive DebounceAction where
  | schedule
  | clearIdle
  | keep
  deriving Repr, DecidableEq

def debounceAction (sourceText : String) (isRecording : Bool) : DebounceAction :=
  if 0 < sourceText.length ∧ isRecording = false then DebounceAction.schedule
  else if sourceText.length = 0 then DebounceAction.clearIdle
  else DebounceAction.keep

/-! ## Speech playback (src/App.tsx lines 19, 395-416)

`handleSpeak` state: the `isSpeaking` flag, plus an instrumentation
counter recording how many `generateSpeech` synthesis requests have been
issued. -/

structure SpeakState where
  isSpeaking : Bool
  synthRequests : Nat
  deriving Repr, DecidableEq

/-- Synchronous prefix of `handleSpeak` (App.tsx 395-404): `!text` guards
the empty string, `isSpeaking` guards an in-flight playback; past the
guard the flag is set before the first await and the synthesis request is
issued.  Returns whether a request was issued. -/
def handleSpeakStart (text : String) (s : SpeakState) : SpeakState × Bool :=
  if text = "" ∨ s.isSpeaking then (s, false)
  else ({ isSpeaking := true, synthRequests := s.synthRequests + 1 }, true)

/-- The `catch` branch of `handleSpeak` (App.tsx 412-415): any error during
the request or the decode clears the in-progress flag. -/
def handleSpeakCatch (s : SpeakState) : SpeakState :=
  { s with isSpeaking := false }

/-- `source.onended` (App.tsx 410): playback completion clears the flag. -/
def speakOnEnded (s : SpeakState) : SpeakState :=
  { s with isSpeaking := false }

/-! ## PCM audio codec (service module, `createAudioBlob` lines 150-160 and
`decodeGeminiPCM` lines 124-138)

Audio samples are modelled as rationals.  The two numeric steps —
`data[i] * 32768` and `dataInt16[i] / 32768.0` — multiply and divide by a
power of two, which is exact in the source's binary floating point, so the
rational model computes the same values. -/

/-- JavaScript ToInteger as applied by an `Int16Array` element write:
truncation toward zero. -/
def ratTrunc (q : Rat) : Int :=
  if 0 ≤ q then ⌊q⌋ else ⌈q⌉

/-- Reduction modulo 2^16 to the stored unsigned bit pattern, the second
half of the `Int16Array` element-write conversion. -/
def toUint16 (n : Int) : Nat :=
  (n % 65536).toNat

/-- `int16[i] = data[i] * 32768` (createAudioBlob, line 154): the stored
16-bit pattern of one sample — truncation toward zero, then reduction
modulo 2^16.  No clamping is performed. -/
def sampleToPCM16 (s : Rat) : Nat :=
  toUint16 (ratTrunc (s * 32768))

/-- The byte sequence of `new Uint8Array(int16.buffer)` (createAudioBlob,
line 157): each stored 16-bit pattern viewed as a little-endian byte pair.
(The base64 wrapping into the returned blob is a separate, content-free
step.) -/
def floatToPCM16 : List Rat → List Nat
  | [] => []
  | s :: rest =>
      sampleToPCM16 s % 256 :: sampleToPCM16 s / 256 :: floatToPCM16 rest

/-- Reading one element of `new Int16Array(buffer)`: a little-endian byte
pair as a signed 16-bit integer. -/
def int16OfBytes (lo hi : Nat) : Int :=
  let u := lo + 256 * hi
  if u < 32768 then (u : Int) else (u : Int) - 65536

/-- The sample loop of `decodeGeminiPCM` (lines 133-135):
`channelData[i] = dataInt16[i] / 32768.0`. -/
def pcm16ToFloatList : List Nat → List Rat
  | lo :: hi :: rest =>
      ((int16OfBytes lo hi : Rat) / 32768) :: pcm16ToFloatList rest
  | _ => []

inductive AudioDecodeFailure where
  | malformedAudio
  deriving Repr, DecidableEq

/-- `decodeGeminiPCM` (lines 124-138): `new Int16Array(buffer)` throws a
RangeError — the spec's MalformedAudioError — when the byte length is not
a multiple of 2; otherwise each byte pair decodes to a float sample. -/
def decodeGeminiPCM (bytes : List Nat) : Except AudioDecodeFailure (List Rat) :=
  if bytes.length % 2 = 0 then Except.ok (pcm16ToFloatList bytes)
  else Except.error AudioDecodeFailure.malformedAudio

end LingoAI

namespace LingoAI

theorem pushHistory_inv (t : String) (history : List String) (historyIndex : Nat)
    (h : HistInv history historyIndex) :
    HistInv (pushHistory t history historyIndex).1 (pushHistory t history historyIndex).2 ∧
    (pushHistory t history historyIndex).1.get? (pushHistory t history historyIndex).2 =
      some t := by
  obtain ⟨hlen, hcur⟩ := h
  unfold pushHistory
  by_cases heq : some t = history.get? historyIndex
  · simp only [if_pos heq]
    exact ⟨⟨hlen, hcur⟩, heq.symm⟩
  · simp only [if_neg heq]
    have htake : (history.take (historyIndex + 1)).length = historyIndex + 1 := by
      simp [List.length_take]; omega
    have happ : (history.take (historyIndex + 1) ++ [t]).length = historyIndex + 2 := by
      simp [htake]
    by_cases hover : 50 < (history.take (historyIndex + 1) ++ [t]).length
    · simp only [if_pos hover]
      -- eviction: the list has historyIndex + 2 = 52 at most, in fact exactly 51 here
      obtain ⟨a, rest, hcons⟩ :
          ∃ a rest, history.take (historyIndex + 1) ++ [t] = a :: rest := by
        rcases h' : history.take (historyIndex + 1) ++ [t] with _ | ⟨a, rest⟩
        · simp at h'
        · exact ⟨a, rest, rfl⟩
      rw [hcons]
      simp only [List.tail_cons]
      have hrestlen : rest.length = historyIndex + 1 := by
        have := happ; rw [hcons] at this; simp at this; omega
      constructor
      · constructor
        · omega
        · simp [hrestlen]
      · -- last element of rest is still t
        have hlast : (a :: rest).get? (historyIndex + 1) = some t := by
          rw [← hcons]
          have : (history.take (historyIndex + 1) ++ [t]).get? ((history.take (historyIndex + 1)).length) = some t := by
            rw [List.get?_append_right (Nat.le_refl _)]
            simp
          rwa [htake] at this
        have : rest.get? historyIndex = some t := by
          simpa using hlast
        simpa [hrestlen] using this
    · simp only [if_neg hover]
      constructor
      · constructor
        · omega
        · simp [happ]
      · have : (history.take (historyIndex + 1) ++ [t]).get? ((history.take (historyIndex + 1)).length) = some t := by
          rw [List.get?_append_right (Nat.le_refl _)]
          simp
        rw [htake] at this
        simpa [happ] using this

theorem pushMany_inv (texts : List String) (history : List String) (historyIndex : Nat)
    (h : HistInv history historyIndex) :
    HistInv (pushMany texts (history, historyIndex)).1
      (pushMany texts (history, historyIndex)).2 := by
  induction texts generalizing history historyIndex with
  | nil => exact h
  | cons t ts ih =>
      have step := (pushHistory_inv t history historyIndex h).1
      have : pushMany (t :: ts) (history, historyIndex) =
          pushMany ts (pushHistory t history historyIndex) := by
        simp [pushMany, List.foldl]
      rw [this]
      have := ih (pushHistory t history historyIndex).1
        (pushHistory t history historyIndex).2 step
      simpa using this

/-- C2: every debounced history push preserves the invariant
`entries.length ≤ 50 ∧ cursor < entries.length`, leaves the pushed text at
the cursor, and the invariant therefore holds after every step of any
sequence of pushes starting from the initial history `['']`. -/
theorem claim_C2_push_invariant :
    (∀ (t : String) (history : List String) (historyIndex : Nat),
      HistInv history historyIndex →
        HistInv (pushHistory t history historyIndex).1
            (pushHistory t history historyIndex).2 ∧
          (pushHistory t history historyIndex).1.get?
              (pushHistory t history historyIndex).2 = some t) ∧
    ∀ texts : List String,
      HistInv (pushMany texts ([""], 0)).1 (pushMany texts ([""], 0)).2 := by
  refine ⟨pushHistory_inv, fun texts => pushMany_inv texts [""] 0 ?_⟩
  exact ⟨by simp, by simp⟩

/-- Witness for C2 at a concrete input: pushing `"a"` onto the initial
history keeps the invariant and stores `"a"` at the cursor. -/
theorem claim_C2_push_invariant_witness :
    (HistInv (pushHistory "a" [""] 0).1 (pushHistory "a" [""] 0).2 ∧
      (pushHistory "a" [""] 0).1.get? (pushHistory "a" [""] 0).2 = some "a") ∧
    HistInv (pushMany ["a", "b", "a"] ([""], 0)).1
      (pushMany ["a", "b", "a"] ([""], 0)).2 :=
  ⟨claim_C2_push_invariant.1 "a" [""] 0 ⟨by simp, by simp⟩,
   claim_C2_push_invariant.2 ["a", "b", "a"]⟩

/-- C3: under the history invariant, undo at cursor 0 is a no-op and redo
at the last entry is a no-op; otherwise undo followed by redo restores
exactly the text that was current before the undo (the entry at the
cursor), leaving entries and cursor as they were. -/
theorem claim_C3_undo_redo (s : HistoryState)
    (hinv : HistInv s.history s.historyIndex) :
    (s.historyIndex = 0 → handleUndo s = s) ∧
    (s.historyIndex = s.history.length - 1 → handleRedo s = s) ∧
    (0 < s.historyIndex → some s.sourceText = s.history.get? s.historyIndex →
      (handleRedo (handleUndo s)).sourceText = s.sourceText ∧
      (handleRedo (handleUndo s)).historyIndex = s.historyIndex ∧
      (handleRedo (handleUndo s)).history = s.history) := by
  obtain ⟨hlen, hcur⟩ := hinv
  refine ⟨?_, ?_, ?_⟩
  · intro h0
    unfold handleUndo
    rw [if_neg (by omega)]
  · intro hlast
    unfold handleRedo
    rw [if_neg (by omega)]
  · intro hpos hsync
    unfold handleUndo
    rw [if_pos hpos]
    unfold handleRedo
    simp only
    rw [if_pos (by omega)]
    have hidx : s.historyIndex - 1 + 1 = s.historyIndex := by omega
    refine ⟨?_, by simpa using hidx, rfl⟩
    simp only [hidx, ← hsync, Option.getD_some]

/-- Witness for C3 at a concrete input: with history `["a", "b"]` and
cursor 1, undo followed by redo restores `"b"`, cursor 1, same entries. -/
theorem claim_C3_undo_redo_witness :
    (handleRedo (handleUndo ⟨["a", "b"], 1, "b", false⟩)).sourceText = "b" ∧
    (handleRedo (handleUndo ⟨["a", "b"], 1, "b", false⟩)).historyIndex = 1 ∧
    (handleRedo (handleUndo ⟨["a", "b"], 1, "b", false⟩)).history = ["a", "b"] :=
  (claim_C3_undo_redo ⟨["a", "b"], 1, "b", false⟩
      ⟨by simp, by simp⟩).2.2 (by simp) (by simp [List.get?])

/-- C10: undo and redo never modify the entries list; when they apply,
they set the re-entrancy flag, and the subsequent history-tracking step
only clears the flag — it records no new entry and moves no cursor. -/
theorem claim_C10_undo_redo_frame (s : HistoryState) :
    (handleUndo s).history = s.history ∧
    (handleRedo s).history = s.history ∧
    (0 < s.historyIndex →
      (handleUndo s).isInternalChange = true ∧
      (historyTrack (handleUndo s)).history = s.history ∧
      (historyTrack (handleUndo s)).historyIndex = (handleUndo s).historyIndex ∧
      (historyTrack (handleUndo s)).isInternalChange = false) ∧
    (s.historyIndex < s.history.length - 1 →
      (handleRedo s).isInternalChange = true ∧
      (historyTrack (handleRedo s)).history = s.history ∧
      (historyTrack (handleRedo s)).historyIndex = (handleRedo s).historyIndex ∧
      (historyTrack (handleRedo s)).isInternalChange = false) := by
  refine ⟨?_, ?_, ?_, ?_⟩
  · unfold handleUndo; split <;> rfl
  · unfold handleRedo; split <;> rfl
  · intro hpos
    have hflag : (handleUndo s).isInternalChange = true := by
      unfold handleUndo; rw [if_pos hpos]
    have hhist : (handleUndo s).history = s.history := by
      unfold handleUndo; rw [if_pos hpos]
    have htrack : historyTrack (handleUndo s) =
        { handleUndo s with isInternalChange := false } := by
      unfold historyTrack; rw [if_pos hflag]
    exact ⟨hflag, by rw [htrack]; exact hhist, by rw [htrack], by rw [htrack]⟩
  · intro hlt
    have hflag : (handleRedo s).isInternalChange = true := by
      unfold handleRedo; rw [if_pos hlt]
    have hhist : (handleRedo s).history = s.history := by
      unfold handleRedo; rw [if_pos hlt]
    have htrack : historyTrack (handleRedo s) =
        { handleRedo s with isInternalChange := false } := by
      unfold historyTrack; rw [if_pos hflag]
    exact ⟨hflag, by rw [htrack]; exact hhist, by rw [htrack], by rw [htrack]⟩

/-- Witness for C10 at a concrete input: undo on history `["a", "b"]` at
cursor 1 leaves the entries untouched and the tracking step records
nothing. -/
theorem claim_C10_undo_redo_frame_witness :
    (handleUndo ⟨["a", "b"], 1, "b", false⟩).history = ["a", "b"] ∧
    (historyTrack (handleUndo ⟨["a", "b"], 1, "b", false⟩)).history = ["a", "b"] ∧
    (historyTrack (handleUndo ⟨["a", "b"], 1, "b", false⟩)).isInternalChange = false :=
  ⟨(claim_C10_undo_redo_frame ⟨["a", "b"], 1, "b", false⟩).1,
   ((claim_C10_undo_redo_frame ⟨["a", "b"], 1, "b", false⟩).2.2.1 (by simp)).2.1,
   ((claim_C10_undo_redo_frame ⟨["a", "b"], 1, "b", false⟩).2.2.1 (by simp)).2.2.2⟩

/-- C1: once a newer generation has been issued (the counter exceeds the
captured generation `g1`), a late chunk of `g1` leaves the whole state
unchanged and aborts its task, the error branch of `g1` publishes nothing,
the detected-language/confidence branch of `g1` publishes nothing, and no
event ever lowers the counter — so `g1` stays stale forever. -/
theorem claim_C1_stale_generation_guard (s : AppState) (g1 : Nat)
    (h : g1 < s.activeStream) :
    (∀ ft c, processChunk g1 ft c s = (s, none)) ∧
    (∀ m, handleTranslateCatch g1 m s = s) ∧
    (∀ r, finishStream true g1 r s = s) ∧
    (∀ ev, s.activeStream ≤ (stepEvent s ev).activeStream) := by
  have hne : g1 ≠ s.activeStream := Nat.ne_of_lt h
  refine ⟨?_, ?_, ?_, ?_⟩
  · intro ft c
    unfold processChunk
    rw [if_pos hne]
  · intro m
    unfold handleTranslateCatch
    rw [if_pos hne]
  · intro r
    unfold finishStream
    rw [if_pos rfl, if_pos hne]
  · intro ev
    cases ev with
    | startReq text =>
        simp only [stepEvent, handleTranslateStart]
        split
        · exact Nat.le_refl _
        · simp
    | chunk g ft c =>
        simp only [stepEvent, processChunk]
        split
        · exact Nat.le_refl _
        · simp
    | finish auto g r =>
        simp only [stepEvent, finishStream]
        split
        · split
          · exact Nat.le_refl _
          · simp
        · simp
    | failed g m =>
        simp only [stepEvent, handleTranslateCatch]
        split
        · exact Nat.le_refl _
        · simp

/-- Witness for C1 at a concrete input: with the counter at 2, a late
chunk, error, or metadata publication of generation 1 changes nothing. -/
theorem claim_C1_stale_generation_guard_witness :
    processChunk 1 "ho" "la"
        ⟨"hi", "partial", "", 0, TranslationStatus.loading, none, 2, none, none, none⟩ =
      (⟨"hi", "partial", "", 0, TranslationStatus.loading, none, 2, none, none, none⟩,
        none) ∧
    handleTranslateCatch 1 (some "boom")
        ⟨"hi", "partial", "", 0, TranslationStatus.loading, none, 2, none, none, none⟩ =
      ⟨"hi", "partial", "", 0, TranslationStatus.loading, none, 2, none, none, none⟩ :=
  ⟨(claim_C1_stale_generation_guard _ 1 (by decide)).1 "ho" "la",
   (claim_C1_stale_generation_guard _ 1 (by decide)).2.1 (some "boom")⟩

/-- C4 counterexample: from a loading state whose in-flight generation 3 is
current, `handleClear` leaves the cancellation-token counter at 3 — it does
not advance it, so the in-flight generation is not discarded, contrary to
the claim. -/
theorem claim_C4_clear_counterexample :
    (handleClear
        ⟨"hola", "ho", "", 0, TranslationStatus.loading, none, 3, none, none, none⟩).activeStream = 3 ∧
    ¬ 3 < (handleClear
        ⟨"hola", "ho", "", 0, TranslationStatus.loading, none, 3, none, none, none⟩).activeStream := by
  constructor
  · rfl
  · decide

/-- C4 (amended): `handleClear` resets all request/response state — source
text, target text, detected language, confidence, error, status — to the
idle configuration without entering the Error state, but it leaves the
cancellation-token counter unchanged, so an in-flight generation remains
current. -/
theorem claim_C4_clear_resets (s : AppState) :
    (handleClear s).sourceText = "" ∧
    (handleClear s).targetText = "" ∧
    (handleClear s).detectedLang = "" ∧
    (handleClear s).confidence = 0 ∧
    (handleClear s).errorMsg = none ∧
    (handleClear s).status = TranslationStatus.idle ∧
    (handleClear s).status ≠ TranslationStatus.errorState ∧
    (handleClear s).activeStream = s.activeStream :=
  ⟨rfl, rfl, rfl, rfl, rfl, rfl, by simp [handleClear], rfl⟩

/-- C8: `handleSpeak` is a no-op on empty text and while a playback is in
flight; two back-to-back calls while the first is in flight issue exactly
one synthesis request (the second is rejected, not queued); and the error
branch clears the in-progress flag. -/
theorem claim_C8_speak_single_flight (s : SpeakState) (t : String) :
    handleSpeakStart "" s = (s, false) ∧
    (s.isSpeaking = true → handleSpeakStart t s = (s, false)) ∧
    (s.isSpeaking = false → t ≠ "" →
      (handleSpeakStart t s).2 = true ∧
      (handleSpeakStart t (handleSpeakStart t s).1).2 = false ∧
      (handleSpeakStart t (handleSpeakStart t s).1).1.synthRequests =
        s.synthRequests + 1) ∧
    (handleSpeakCatch s).isSpeaking = false := by
  refine ⟨?_, ?_, ?_, rfl⟩
  · unfold handleSpeakStart
    rw [if_pos (Or.inl rfl)]
  · intro hs
    unfold handleSpeakStart
    rw [if_pos (Or.inr hs)]
  · intro hs ht
    have hfirst : handleSpeakStart t s =
        ({ isSpeaking := true, synthRequests := s.synthRequests + 1 }, true) := by
      unfold handleSpeakStart
      rw [if_neg (by simp [ht, hs])]
    rw [hfirst]
    have hsecond : handleSpeakStart t
        ({ isSpeaking := true, synthRequests := s.synthRequests + 1 } : SpeakState) =
        ({ isSpeaking := true, synthRequests := s.synthRequests + 1 }, false) := by
      unfold handleSpeakStart
      rw [if_pos (Or.inr rfl)]
    rw [hsecond]
    exact ⟨rfl, rfl, rfl⟩

/-- Witness for C8 at a concrete input: from an idle speaker, calling
`handleSpeakStart "hi"` twice issues exactly one synthesis request, and
`handleSpeakStart ""` does nothing. -/
theorem claim_C8_speak_single_flight_witness :
    handleSpeakStart "" ⟨false, 0⟩ = (⟨false, 0⟩, false) ∧
    (handleSpeakStart "hi" ⟨false, 0⟩).2 = true ∧
    (handleSpeakStart "hi" (handleSpeakStart "hi" ⟨false, 0⟩).1).2 = false ∧
    (handleSpeakStart "hi" (handleSpeakStart "hi" ⟨false, 0⟩).1).1.synthRequests = 1 :=
  ⟨(claim_C8_speak_single_flight ⟨false, 0⟩ "hi").1,
   ((claim_C8_speak_single_flight ⟨false, 0⟩ "hi").2.2.1 rfl (by decide)).1,
   ((claim_C8_speak_single_flight ⟨false, 0⟩ "hi").2.2.1 rfl (by decide)).2.1,
   ((claim_C8_speak_single_flight ⟨false, 0⟩ "hi").2.2.1 rfl (by decide)).2.2⟩

/-- C9: text that is non-empty but trims to empty passes the debounce
guard (translation is scheduled), and `handleTranslateStart` then clears
target text, detected language and confidence, starts no stream, and
leaves status, error message, generation counter and source text
untouched. -/
theorem claim_C9_whitespace_partial_clear (s : AppState) (text : String)
    (hlen : 0 < text.length) (htrim : jsTrim text = "") :
    debounceAction text false = DebounceAction.schedule ∧
    (handleTranslateStart text s).2 = none ∧
    (handleTranslateStart text s).1.targetText = "" ∧
    (handleTranslateStart text s).1.detectedLang = "" ∧
    (handleTranslateStart text s).1.confidence = 0 ∧
    (handleTranslateStart text s).1.status = s.status ∧
    (handleTranslateStart text s).1.errorMsg = s.errorMsg ∧
    (handleTranslateStart text s).1.activeStream = s.activeStream ∧
    (handleTranslateStart text s).1.sourceText = s.sourceText := by
  have hstart : handleTranslateStart text s =
      ({ s with targetText := "", detectedLang := "", confidence := 0 }, none) := by
    unfold handleTranslateStart
    rw [if_pos htrim]
  refine ⟨?_, by rw [hstart], by rw [hstart], by rw [hstart], by rw [hstart],
    by rw [hstart], by rw [hstart], by rw [hstart], by rw [hstart]⟩
  unfold debounceAction
  rw [if_pos ⟨hlen, rfl⟩]

/-- Witness for C9 at a concrete input: a single space passes the debounce
guard yet produces only the partial clear, with no stream started. -/
theorem claim_C9_whitespace_partial_clear_witness :
    debounceAction " " false = DebounceAction.schedule ∧
    (handleTranslateStart " "
        ⟨"x", "y", "en", 1, TranslationStatus.success, some "old", 7, none, none, none⟩).2 = none ∧
    (handleTranslateStart " "
        ⟨"x", "y", "en", 1, TranslationStatus.success, some "old", 7, none, none, none⟩).1.status =
      TranslationStatus.success ∧
    (handleTranslateStart " "
        ⟨"x", "y", "en", 1, TranslationStatus.success, some "old", 7, none, none, none⟩).1.activeStream = 7 :=
  ⟨(claim_C9_whitespace_partial_clear
      ⟨"x", "y", "en", 1, TranslationStatus.success, some "old", 7, none, none, none⟩
      " " (by decide) (by decide)).1,
   (claim_C9_whitespace_partial_clear _ " " (by decide) (by decide)).2.1,
   (claim_C9_whitespace_partial_clear
      ⟨"x", "y", "en", 1, TranslationStatus.success, some "old", 7, none, none, none⟩
      " " (by decide) (by decide)).2.2.2.2.2.1,
   (claim_C9_whitespace_partial_clear
      ⟨"x", "y", "en", 1, TranslationStatus.success, some "old", 7, none, none, none⟩
      " " (by decide) (by decide)).2.2.2.2.2.2.2.1⟩

theorem floatToPCM16_length (samples : List Rat) :
    (floatToPCM16 samples).length = 2 * samples.length := by
  induction samples with
  | nil => rfl
  | cons s rest ih => simp [floatToPCM16, ih]; omega

theorem floatToPCM16_get (i : Nat) :
    ∀ (samples : List Rat) (s : Rat), samples.get? i = some s →
      (floatToPCM16 samples).get? (2 * i) = some (sampleToPCM16 s % 256) ∧
      (floatToPCM16 samples).get? (2 * i + 1) = some (sampleToPCM16 s / 256) := by
  induction i with
  | zero =>
      intro samples s hs
      cases samples with
      | nil => simp at hs
      | cons a rest =>
          simp only [List.get?_cons_zero, Option.some.injEq] at hs
          subst hs
          exact ⟨rfl, rfl⟩
  | succ i ih =>
      intro samples s hs
      cases samples with
      | nil => simp at hs
      | cons a rest =>
          simp only [List.get?_cons_succ] at hs
          have h2 : 2 * (i + 1) = 2 * i + 1 + 1 := by ring
          rw [h2]
          have hrec := ih rest s hs
          constructor
          · show (floatToPCM16 (a :: rest)).get? (2 * i + 1 + 1) = _
            simpa [floatToPCM16] using hrec.1
          · show (floatToPCM16 (a :: rest)).get? (2 * i + 1 + 1 + 1) = _
            simpa [floatToPCM16] using hrec.2

theorem pcm16ToFloatList_length :
    ∀ bytes : List Nat, (pcm16ToFloatList bytes).length = bytes.length / 2
  | [] => rfl
  | [_] => by simp [pcm16ToFloatList]
  | _ :: _ :: rest => by
      simp [pcm16ToFloatList, pcm16ToFloatList_length rest]
      omega

theorem pcm16ToFloatList_get (i : Nat) :
    ∀ (bytes : List Nat) (lo hi : Nat),
      bytes.get? (2 * i) = some lo → bytes.get? (2 * i + 1) = some hi →
      (pcm16ToFloatList bytes).get? i = some ((int16OfBytes lo hi : Rat) / 32768) := by
  induction i with
  | zero =>
      intro bytes lo hi hlo hhi
      cases bytes with
      | nil => simp at hlo
      | cons a rest =>
          cases rest with
          | nil => simp at hhi
          | cons b rest' =>
              simp only [Nat.mul_zero, List.get?_cons_zero, Option.some.injEq] at hlo
              simp only [Nat.mul_zero, Nat.zero_add, List.get?_cons_succ,
                List.get?_cons_zero, Option.some.injEq] at hhi
              subst hlo; subst hhi
              rfl
  | succ i ih =>
      intro bytes lo hi hlo hhi
      cases bytes with
      | nil => simp at hlo
      | cons a rest =>
          cases rest with
          | nil =>
              have h2 : 2 * (i + 1) = 2 * i + 1 + 1 := by ring
              rw [h2] at hlo
              simp at hlo
          | cons b rest' =>
              have h2 : 2 * (i + 1) = 2 * i + 1 + 1 := by ring
              rw [h2] at hlo hhi
              simp only [List.get?_cons_succ] at hlo hhi
              show (pcm16ToFloatList (a :: b :: rest')).get? (i + 1) = _
              simpa [pcm16ToFloatList] using ih rest' lo hi hlo hhi

theorem int16OfBytes_toUint16 (n : Int) (hlo : -32768 ≤ n) (hhi : n ≤ 32767) :
    int16OfBytes (toUint16 n % 256) (toUint16 n / 256) = n := by
  have hsum : toUint16 n % 256 + 256 * (toUint16 n / 256) = toUint16 n :=
    Nat.mod_add_div _ _
  unfold int16OfBytes
  simp only [hsum]
  unfold toUint16
  split <;> omega

theorem ratTrunc_abs_sub_le (x : Rat) : |(ratTrunc x : Rat) - x| ≤ 1 := by
  unfold ratTrunc
  split
  · rw [abs_le]
    constructor
    · have := Int.sub_one_lt_floor x
      linarith
    · have := Int.floor_le x
      linarith
  · rw [abs_le]
    constructor
    · have := Int.le_ceil x
      linarith
    · have := Int.ceil_lt_add_one x
      linarith

theorem ratTrunc_bounds (s : Rat) (h1 : -1 ≤ s) (h2 : s < 1) :
    -32768 ≤ ratTrunc (s * 32768) ∧ ratTrunc (s * 32768) ≤ 32767 := by
  have hx1 : (-32768 : Rat) ≤ s * 32768 := by nlinarith
  have hx2 : s * 32768 < 32768 := by nlinarith
  unfold ratTrunc
  split
  · constructor
    · have : (0 : Int) ≤ ⌊s * 32768⌋ := Int.floor_nonneg.mpr (by assumption)
      omega
    · have : ⌊s * 32768⌋ < (32768 : Int) := by
        rw [Int.floor_lt]
        exact_mod_cast hx2
      omega
  · constructor
    · have hxc : ((-32768 : Int) : Rat) ≤ s * 32768 := by exact_mod_cast hx1
      have := Int.le_ceil (s * 32768)
      have : ((-32768 : Int) : Rat) ≤ (⌈s * 32768⌉ : Rat) := le_trans hxc this
      exact_mod_cast this
    · have hneg : s * 32768 ≤ 0 := le_of_not_le (by assumption)
      have : ⌈s * 32768⌉ ≤ (0 : Int) := Int.ceil_le.mpr (by exact_mod_cast hneg)
      omega

theorem decode_encode_sample (s : Rat) (h1 : -1 ≤ s) (h2 : s < 1) :
    |(int16OfBytes (sampleToPCM16 s % 256) (sampleToPCM16 s / 256) : Rat) / 32768 - s|
      ≤ 1 / 32768 := by
  obtain ⟨hbl, hbu⟩ := ratTrunc_bounds s h1 h2
  have hdec : int16OfBytes (sampleToPCM16 s % 256) (sampleToPCM16 s / 256) =
      ratTrunc (s * 32768) := by
    unfold sampleToPCM16
    exact int16OfBytes_toUint16 _ hbl hbu
  rw [hdec]
  have habs := ratTrunc_abs_sub_le (s * 32768)
  have hrw : (ratTrunc (s * 32768) : Rat) / 32768 - s =
      ((ratTrunc (s * 32768) : Rat) - s * 32768) / 32768 := by
    field_simp
    ring
  rw [hrw, abs_div]
  rw [abs_of_pos (show (0 : Rat) < 32768 by norm_num)]
  exact div_le_div_of_nonneg_right habs (by norm_num) |>.trans_eq rfl

theorem roundtrip_pointwise :
    ∀ (samples : List Rat), (∀ s ∈ samples, -1 ≤ s ∧ s < 1) →
      ∀ (i : Nat) (s d : Rat), samples.get? i = some s →
        (pcm16ToFloatList (floatToPCM16 samples)).get? i = some d →
        |d - s| ≤ 1 / 32768 := by
  intro samples
  induction samples with
  | nil => intro _ i s d hs _; simp at hs
  | cons a rest ih =>
      intro hmem i s d hs hd
      have hcons : pcm16ToFloatList (floatToPCM16 (a :: rest)) =
          ((int16OfBytes (sampleToPCM16 a % 256) (sampleToPCM16 a / 256) : Rat) / 32768)
            :: pcm16ToFloatList (floatToPCM16 rest) := rfl
      cases i with
      | zero =>
          simp only [List.get?_cons_zero, Option.some.injEq] at hs
          rw [hcons] at hd
          simp only [List.get?_cons_zero, Option.some.injEq] at hd
          subst hs; subst hd
          have ha := hmem a (List.mem_cons_self a rest)
          exact decode_encode_sample a ha.1 ha.2
      | succ i =>
          simp only [List.get?_cons_succ] at hs
          rw [hcons] at hd
          simp only [List.get?_cons_succ] at hd
          exact ih (fun s hsm => hmem s (List.mem_cons_of_mem a hsm)) i s d hs hd

/-- C6: decoding a byte buffer fails with the malformed-audio error exactly
when the byte length is odd; on even lengths it produces one sample per
little-endian byte pair, each interpreted as a signed 16-bit integer and
divided by 32768. -/
theorem claim_C6_decode_validates (bytes : List Nat) :
    (bytes.length % 2 ≠ 0 →
      decodeGeminiPCM bytes = Except.error AudioDecodeFailure.malformedAudio) ∧
    (bytes.length % 2 = 0 →
      decodeGeminiPCM bytes = Except.ok (pcm16ToFloatList bytes) ∧
      (pcm16ToFloatList bytes).length = bytes.length / 2 ∧
      ∀ i lo hi, bytes.get? (2 * i) = some lo → bytes.get? (2 * i + 1) = some hi →
        (pcm16ToFloatList bytes).get? i =
          some ((int16OfBytes lo hi : Rat) / 32768)) := by
  constructor
  · intro hodd
    unfold decodeGeminiPCM
    rw [if_neg hodd]
  · intro heven
    refine ⟨?_, pcm16ToFloatList_length bytes, fun i lo hi hlo hhi =>
      pcm16ToFloatList_get i bytes lo hi hlo hhi⟩
    unfold decodeGeminiPCM
    rw [if_pos heven]

/-- Witness for C6 at concrete inputs: a one-byte buffer is rejected as
malformed; the two-byte buffer `[0x00, 0x80]` decodes to the single sample
`-32768 / 32768 = -1`. -/
theorem claim_C6_decode_validates_witness :
    decodeGeminiPCM [1] = Except.error AudioDecodeFailure.malformedAudio ∧
    decodeGeminiPCM [0, 128] = Except.ok (pcm16ToFloatList [0, 128]) ∧
    (pcm16ToFloatList [0, 128]).get? 0 = some ((int16OfBytes 0 128 : Rat) / 32768) :=
  ⟨(claim_C6_decode_validates [1]).1 (by decide),
   ((claim_C6_decode_validates [0, 128]).2 (by decide)).1,
   ((claim_C6_decode_validates [0, 128]).2 (by decide)).2.2 0 0 128 rfl rfl⟩

/-- C5 counterexample: the sample `3/65536` scales to `1.5`; the encoder
stores `1` (truncation toward zero), not `round(1.5) = 2`, so the claimed
per-sample mapping `round(s × 32768)` does not describe the code. -/
theorem claim_C5_encode_counterexample :
    floatToPCM16 [(3 : Rat) / 65536] = [1, 0] ∧
    round ((3 : Rat) / 65536 * 32768) = 2 ∧
    floatToPCM16 [(3 : Rat) / 65536] ≠
      [((round ((3 : Rat) / 65536 * 32768)) % 65536).toNat % 256,
       ((round ((3 : Rat) / 65536 * 32768)) % 65536).toNat / 256] := by
  have hprod : ((3 : Rat) / 65536 * 32768) = 3 / 2 := by norm_num
  have htr : ratTrunc ((3 : Rat) / 65536 * 32768) = 1 := by
    unfold ratTrunc
    rw [hprod, if_pos (by norm_num), Int.floor_eq_iff]
    norm_num
  have henc : sampleToPCM16 ((3 : Rat) / 65536) = 1 := by
    unfold sampleToPCM16
    rw [htr]
    decide
  have hlist : floatToPCM16 [(3 : Rat) / 65536] = [1, 0] := by
    simp [floatToPCM16, henc]
  have hrnd : round ((3 : Rat) / 65536 * 32768) = 2 := by
    rw [hprod, round_eq]
    norm_num
  refine ⟨hlist, hrnd, ?_⟩
  rw [hlist, hrnd]
  decide

/-- C5 (amended): each sample s maps to the truncation toward zero of
s × 32768, reduced modulo 2^16 and stored as a little-endian byte pair,
with no clamping — in particular a scaled value of 32768 (sample 1) is
stored as the wrapped pattern 0x8000 rather than clamped to 32767. -/
theorem claim_C5_encode_truncates (samples : List Rat) :
    (floatToPCM16 samples).length = 2 * samples.length ∧
    (∀ i s, samples.get? i = some s →
      (floatToPCM16 samples).get? (2 * i) =
        some ((ratTrunc (s * 32768) % 65536).toNat % 256) ∧
      (floatToPCM16 samples).get? (2 * i + 1) =
        some ((ratTrunc (s * 32768) % 65536).toNat / 256)) ∧
    (∀ n : Int, sampleToPCM16 ((n : Rat) / 32768) = (n % 65536).toNat) := by
  refine ⟨floatToPCM16_length samples, ?_, ?_⟩
  · intro i s hs
    exact floatToPCM16_get i samples s hs
  · intro n
    have hx : ((n : Rat) / 32768 * 32768) = ((n : Int) : Rat) := by
      field_simp
    have htr : ratTrunc ((n : Rat) / 32768 * 32768) = n := by
      rw [hx]
      unfold ratTrunc
      split
      · exact Int.floor_intCast n
      · exact Int.ceil_intCast n
    unfold sampleToPCM16 toUint16
    rw [htr]

/-- Witness for C5 at concrete inputs: the first byte of the encoding of
`3/65536` is the truncated-and-wrapped low byte, and the scaled value
32768 (sample 1) wraps to the bit pattern 32768 = 0x8000 instead of being
clamped. -/
theorem claim_C5_encode_truncates_witness :
    (floatToPCM16 [(3 : Rat) / 65536]).get? (2 * 0) =
      some ((ratTrunc ((3 : Rat) / 65536 * 32768) % 65536).toNat % 256) ∧
    sampleToPCM16 (((32768 : Int) : Rat) / 32768) = ((32768 : Int) % 65536).toNat :=
  ⟨((claim_C5_encode_truncates [(3 : Rat) / 65536]).2.1 0 ((3 : Rat) / 65536) rfl).1,
   (claim_C5_encode_truncates []).2.2 32768⟩

/-- C7 counterexample: the sample `1` lies in the claimed domain `[-1, 1]`,
but its encoding wraps to the int16 pattern of −32768, which decodes to
−1 — an error of 2, far beyond one quantization step. -/
theorem claim_C7_roundtrip_counterexample :
    decodeGeminiPCM (floatToPCM16 [(1 : Rat)]) = Except.ok [(-1 : Rat)] ∧
    ¬ |(-1 : Rat) - 1| ≤ 1 / 32768 := by
  have htr : ratTrunc ((1 : Rat) * 32768) = 32768 := by
    unfold ratTrunc
    rw [if_pos (by norm_num)]
    rw [show ((1 : Rat) * 32768) = ((32768 : Int) : Rat) by norm_num,
      Int.floor_intCast]
  have henc : sampleToPCM16 (1 : Rat) = 32768 := by
    unfold sampleToPCM16
    rw [htr]
    decide
  have hlist : floatToPCM16 [(1 : Rat)] = [0, 128] := by
    simp [floatToPCM16, henc]
  have hdec : pcm16ToFloatList [0, 128] = [(-1 : Rat)] := by
    simp only [pcm16ToFloatList, show int16OfBytes 0 128 = -32768 by decide]
    norm_num
  constructor
  · rw [hlist]
    unfold decodeGeminiPCM
    rw [if_pos (by decide), hdec]
  · rw [show ((-1 : Rat) - 1) = -2 by norm_num,
      abs_of_nonpos (by norm_num)]
    norm_num

/-- C7 (amended): for samples in `[-1, 1)` — with the right endpoint
excluded, since the sample 1 wraps to −1 — decoding the encoded bytes
succeeds and reproduces each sample to within one quantization step,
1/32768. -/
theorem claim_C7_roundtrip_within_step (samples : List Rat)
    (h : ∀ s ∈ samples, -1 ≤ s ∧ s < 1) :
    decodeGeminiPCM (floatToPCM16 samples) =
      Except.ok (pcm16ToFloatList (floatToPCM16 samples)) ∧
    (pcm16ToFloatList (floatToPCM16 samples)).length = samples.length ∧
    ∀ i s d, samples.get? i = some s →
      (pcm16ToFloatList (floatToPCM16 samples)).get? i = some d →
      |d - s| ≤ 1 / 32768 := by
  refine ⟨?_, ?_, roundtrip_pointwise samples h⟩
  · unfold decodeGeminiPCM
    rw [if_pos (by rw [floatToPCM16_length]; omega)]
  · rw [pcm16ToFloatList_length, floatToPCM16_length]
    omega

/-- Witness for C7 at a concrete input: the singleton sample list `[1/2]`
satisfies the range hypothesis and round-trips within one quantization
step. -/
theorem claim_C7_roundtrip_within_step_witness :
    decodeGeminiPCM (floatToPCM16 [(1 : Rat) / 2]) =
      Except.ok (pcm16ToFloatList (floatToPCM16 [(1 : Rat) / 2])) ∧
    (pcm16ToFloatList (floatToPCM16 [(1 : Rat) / 2])).length = 1 ∧
    ∀ i s d, [(1 : Rat) / 2].get? i = some s →
      (pcm16ToFloatList (floatToPCM16 [(1 : Rat) / 2])).get? i = some d →
      |d - s| ≤ 1 / 32768 :=
  claim_C7_roundtrip_within_step [(1 : Rat) / 2] (by
    intro s hs
    simp only [List.mem_singleton] at hs
    subst hs
    norm_num)

end LingoAI
